import Mathlib

/-!
Verification of `fast_computation/discrete_fast_lcs_computation.cpp`
(repository LCS-FTLE-Optimized).

The orchestrator, the filename builders `CreateFileName` / `CreateFTLEFileName`
and `GetPrecision` are in the repository source and are embedded here directly.
The flow/field/io headers included by the program (`../src/flow.hpp`,
`../src/field.hpp`, `../src/io.hpp`, `../src/json.hpp`) are not part of the
source snapshot, so their operations (`SetAll`, `Run`, `SetInitialTime`,
`GetTime`, `UpdateTime`, `InterpolateFrom`, the json accessors and the OpenMP
cell loops) are modelled from the specification; each such definition carries a
doc comment saying so.

Doubles are modelled as exact rationals (`ℚ`); every finite double is a dyadic
rational `m / 2^e`, which is the domain used for the `GetPrecision` claims.
The `long long` cast inside `GetPrecision` is modelled as bounded: when the
truncated value does not fit in `long long` the conversion is undefined
behavior in C++, and the model adopts the de facto x86 result (`INT64_MIN`).
-/

namespace LCS

/-- C++ `static_cast<long long>(double)`: truncation toward zero.  `long long`
is bounded: when the truncated value does not fit in `[-2^63, 2^63)` (i.e.
unless `-2^63 - 1 < q < 2^63`) the conversion is undefined behavior in C++;
x86's `cvttsd2si` then produces `INT64_MIN`, the de facto semantics modelled
here. -/
def truncQ (q : ℚ) : ℤ :=
  if q < 2 ^ 63 ∧ -(2 ^ 63) - 1 < q then (if q < 0 then ⌈q⌉ else ⌊q⌋)
  else -(2 ^ 63)

/-- `GetPrecision` (lines 231-238): the loop
`while (std::abs(num - (long long)num) > 0) { num *= 10; precision++; }`,
written with explicit fuel.  `none` means the fuel ran out before the loop
exited; the termination theorem shows fuel `e` suffices for `m / 2^e`. -/
def getPrecisionFuel : ℕ → ℚ → Option ℕ
  | 0, q => if 0 < |q - (truncQ q : ℚ)| then none else some 0
  | fuel + 1, q =>
      if 0 < |q - (truncQ q : ℚ)| then
        (getPrecisionFuel fuel (q * 10)).map (· + 1)
      else some 0

/-- Total wrapper for `GetPrecision`: the denominator of a dyadic rational is
`2^j` with `j < 2^j`, so the fuel `q.den` suffices whenever the loop
terminates at all (inputs whose decimal shifts stay in `long long` range);
for larger inputs the real loop never exits and every fuel is exhausted. -/
def GetPrecision (q : ℚ) : Option ℕ := getPrecisionFuel q.den q

/-- Divergence of the `GetPrecision` loop: every fuel bound is exhausted, so
the source `while` loop never exits. -/
def getPrecisionDiverges (q : ℚ) : Prop :=
  ∀ fuel : ℕ, getPrecisionFuel fuel q = none

/-- A json value as read by the program: a number or a string. -/
inductive JVal
  | num (q : ℚ)
  | str (s : String)
deriving DecidableEq

/-- Modelled from the spec: `nlohmann::json` key access `json["key"]` on the
parsed document, first match wins.  Missing key yields `none`. -/
def jlookup (doc : List (String × JVal)) (k : String) : Option JVal :=
  (doc.find? (fun kv => kv.fst = k)).map (fun kv => kv.snd)

/-- Conversion of a looked-up json value to double (`const double x = json[..]`);
a missing key or a non-number value throws in the source, modelled as `none`. -/
def asNum : Option JVal → Option ℚ
  | some (JVal.num q) => some q
  | some (JVal.str _) => none
  | none => none

/-- Conversion of a looked-up json value to `std::string`. -/
def asStr : Option JVal → Option String
  | some (JVal.num _) => none
  | some (JVal.str s) => some s
  | none => none

/-- The settings read in `main` (lines 50-63). `nx, ny, data_nx, data_ny` are
declared `const double` in the source, `steps` is `const int`. -/
structure Config where
  x_min : ℚ
  x_max : ℚ
  y_min : ℚ
  y_max : ℚ
  nx : ℚ
  ny : ℚ
  data_nx : ℚ
  data_ny : ℚ
  t_min : ℚ
  t_max : ℚ
  data_delta_t : ℚ
  steps : ℤ
  filePref : String
  direction : String
deriving DecidableEq

/-- The keys `main` reads (lines 50-63). -/
def recognizedKeys : List String :=
  ["x_min", "x_max", "y_min", "y_max", "nx", "ny", "data_nx", "data_ny",
   "t_min", "t_max", "data_delta_t", "steps", "file_prefix", "direction"]

/-- Reading the settings (lines 50-63), in source order.  Modelled from the
spec for the missing `json.hpp`: a document missing a recognized key (or with a
wrongly-typed value) throws, i.e. yields `none`; keys other than the fourteen
read here are never consulted. -/
def readConfig (doc : List (String × JVal)) : Option Config :=
  Option.bind (asNum (jlookup doc "x_min")) fun x_min =>
  Option.bind (asNum (jlookup doc "x_max")) fun x_max =>
  Option.bind (asNum (jlookup doc "y_min")) fun y_min =>
  Option.bind (asNum (jlookup doc "y_max")) fun y_max =>
  Option.bind (asNum (jlookup doc "nx")) fun nx =>
  Option.bind (asNum (jlookup doc "ny")) fun ny =>
  Option.bind (asNum (jlookup doc "data_nx")) fun data_nx =>
  Option.bind (asNum (jlookup doc "data_ny")) fun data_ny =>
  Option.bind (asNum (jlookup doc "t_min")) fun t_min =>
  Option.bind (asNum (jlookup doc "t_max")) fun t_max =>
  Option.bind (asNum (jlookup doc "data_delta_t")) fun data_delta_t =>
  Option.bind (asNum (jlookup doc "steps")) fun steps =>
  Option.bind (asStr (jlookup doc "file_prefix")) fun fp =>
  Option.bind (asStr (jlookup doc "direction")) fun dir =>
  some { x_min := x_min, x_max := x_max, y_min := y_min, y_max := y_max
         nx := nx, ny := ny, data_nx := data_nx, data_ny := data_ny
         t_min := t_min, t_max := t_max, data_delta_t := data_delta_t
         steps := truncQ steps, filePref := fp, direction := dir }

/-- Integration direction (lines 94-112). -/
inductive Dir
  | fwd
  | bwd
deriving DecidableEq

/-- The direction check of `main` (lines 94-112). -/
def dirOf (c : Config) : Option Dir :=
  if c.direction = "forward" then some Dir.fwd
  else if c.direction = "backward" then some Dir.bwd
  else none

/-- `calc_delta_t = (t_max - t_min) / steps` (line 68).  For `steps = 0` the
source divides by zero in IEEE doubles (giving an infinity); the value is then
never used, because both loops run zero iterations.  `ℚ` returns `0` there. -/
def calcDelta (c : Config) : ℚ := (c.t_max - c.t_min) / (c.steps : ℚ)

/-- `t_initial` (lines 96, 104). -/
def tInitial (c : Config) : Dir → ℚ
  | Dir.fwd => c.t_min
  | Dir.bwd => c.t_max

/-- `t_final` (lines 97, 105). -/
def tFinal (c : Config) : Dir → ℚ
  | Dir.fwd => c.t_max
  | Dir.bwd => c.t_min

/-- `signed_calc_delta_t` (lines 98, 106). -/
def signedDelta (c : Config) : Dir → ℚ
  | Dir.fwd => calcDelta c
  | Dir.bwd => -calcDelta c

/-- `sign_prefix` (lines 99, 107). -/
def signPref : Dir → String
  | Dir.fwd => "positive_"
  | Dir.bwd => "negative_"

/-- Joining with `std::filesystem::path` (POSIX separator). -/
def pathJoin (dir file : String) : String := dir ++ "/" ++ file

def projDir : String := "fast_computation"

def stepMapsPath : String := pathJoin projDir "step_flow_maps"

def ftlePath : String := pathJoin (pathJoin projDir "results") "ftle"

/-- `std::fixed << std::setprecision(p)` rendering of a double, on `ℚ`:
sign, integer part, `p` fractional digits (no decimal point when `p = 0`);
rounding to nearest (the half-ulp tie behaviour of the binary-to-decimal
conversion is immaterial for the filename claims, which are exact). -/
def fmtFixed (p : ℕ) (q : ℚ) : String :=
  let sgn := if q < 0 then "-" else ""
  let n : ℤ := ⌊|q| * 10 ^ p + 1 / 2⌋
  let base : ℤ := 10 ^ p
  if p = 0 then sgn ++ toString n
  else
    let fs := toString (n % base).toNat
    sgn ++ toString (n / base) ++ "." ++ String.pushn "" '0' (p - fs.length) ++ fs

/-- `CreateFileName` (lines 201-206); the `t` argument stands for
`DiFlFi.GetTime()` at the call site. -/
def CreateFileName (path fPref sPref : String) (precision : ℕ) (t : ℚ) : String :=
  pathJoin path (fPref ++ sPref ++ fmtFixed precision t ++ ".bin")

/-- `CreateFTLEFileName` (lines 208-218): forward runs put the origin time
(`InitialPosition().GetTime()`) first, backward runs put the current time
(`GetTime()`, equal to `t_final` at the call site) first. -/
def CreateFTLEFileName (path fPref sPref : String) (precision : ℕ) (d : Dir)
    (originT currentT : ℚ) : String :=
  match d with
  | Dir.fwd =>
      pathJoin path (fPref ++ sPref ++ fmtFixed precision originT ++ "-"
        ++ fmtFixed precision currentT ++ ".txt")
  | Dir.bwd =>
      pathJoin path (fPref ++ sPref ++ fmtFixed precision currentT ++ "-"
        ++ fmtFixed precision originT ++ ".txt")

/-- `precision = GetPrecision(data_delta_t)` (line 69); the default is never
taken for a double input. -/
def runPrecision (c : Config) : ℕ := (GetPrecision c.data_delta_t).getD 0

/-- A position field over the output grid: cell `(i, j)` to its position. -/
abbrev Grid := ℕ → ℕ → ℚ × ℚ

/-- Modelled from the spec (§3, data model): `Position::SetAll(x_min, x_max,
y_min, y_max)` of the missing `field.hpp` fills the field with the uniform
grid: cell `(i, j)` at `(x_min + i·dx, y_min + j·dy)`. -/
def uniformGrid (c : Config) : Grid := fun i j =>
  (c.x_min + (i : ℚ) * ((c.x_max - c.x_min) / (c.nx - 1)),
   c.y_min + (j : ℚ) * ((c.y_max - c.y_min) / (c.ny - 1)))

/-- A step-flow-map file on disk: keyed by the time in its filename. -/
structure StepMapFile where
  key : ℚ
  name : String
  content : Grid

/-- The identity step map written before the Phase A loop (lines 117-121):
keyed `t_initial`, content the uniform grid. -/
def idFileOf (c : Config) (d : Dir) : StepMapFile :=
  { key := tInitial c d
    name := CreateFileName stepMapsPath c.filePref (signPref d) (runPrecision c) (tInitial c d)
    content := uniformGrid c }

/-- The step-flow-map file written by Phase A iteration `s` (lines 126-135):
keyed by the end time `t_initial + (s+1)·signedΔt`, containing the one-step
advection seeded on the uniform grid at `t_initial + s·signedΔt`. -/
def stepFileAt (c : Config) (d : Dir) (advect : ℚ → Grid → Grid) (s : ℕ) : StepMapFile :=
  { key := tInitial c d + signedDelta c d * ((s : ℚ) + 1)
    name := CreateFileName stepMapsPath c.filePref (signPref d) (runPrecision c)
      (tInitial c d + signedDelta c d * ((s : ℚ) + 1))
    content := advect (tInitial c d + signedDelta c d * (s : ℚ)) (uniformGrid c) }

/-- The flow-field state carried through Phase A: current flow time, current
position field, and the files written so far. -/
structure PhaseAState where
  time : ℚ
  pos : Grid
  store : List StepMapFile

/-- Lines 117-123: `SetInitialTime(t_initial)`, reset `InitialPosition` to the
uniform grid, write the identity step map, copy to `CurrentPosition`. -/
def phaseAInit (c : Config) (d : Dir) : PhaseAState :=
  { time := tInitial c d
    pos := uniformGrid c
    store := [idFileOf c d] }

/-- One Phase A iteration (lines 126-135).  `advect` abstracts
`DiscreteFlowField::Run` of the missing headers; modelled from the spec §4.2:
it advances the particles of the current position field by one output step and
the flow time by `signedΔt`.  After the write, `CurrentPosition` is reset to
the uniform grid (line 133). -/
def phaseAStep (c : Config) (d : Dir) (advect : ℚ → Grid → Grid)
    (st : PhaseAState) : PhaseAState :=
  let endPos := advect st.time st.pos
  let endTime := st.time + signedDelta c d
  { time := endTime
    pos := uniformGrid c
    store := st.store ++
      [{ key := endTime
         name := CreateFileName stepMapsPath c.filePref (signPref d) (runPrecision c) endTime
         content := endPos }] }

/-- Phase A (lines 117-135): the identity write followed by `steps` iterations
(`for (int i = 0; i < steps; i++)`). -/
def phaseARun (c : Config) (d : Dir) (advect : ℚ → Grid → Grid) : PhaseAState :=
  (phaseAStep c d advect)^[c.steps.toNat] (phaseAInit c d)

/-- Reading a step-flow-map file back by its filename key
(`ReadFromMemoryMappedFile`, missing `io.hpp`).  A missing file is an IOError
in the source; the fallback grid is never reached in the proved runs. -/
def lookupStore (store : List StepMapFile) (k : ℚ) : Grid :=
  match store.find? (fun f => f.key = k) with
  | some f => f.content
  | none => fun _ _ => (0, 0)

/-- `CalculateInterpolatedPosition` (lines 220-229), at current position time
`curTime`.  Modelled from the spec for the missing flow/io headers (§4.4a and
§4.3): the loaded map is the step map whose start time equals the current time
of the position field; step-map files are keyed by their end time, so the file
key is `curTime + signedΔt`.  `resamp` abstracts
`Velocity::InterpolateFrom` (bilinear resampling of the step map at the
current particle positions, §4.4b).  The returned pair also records the load
event `(current time, file key)` for the trace. -/
def CalculateInterpolatedPosition (c : Config) (d : Dir)
    (resamp : Grid → Grid → Grid) (store : List StepMapFile)
    (curTime : ℚ) (curPos : Grid) : Grid × (ℚ × ℚ) :=
  let key := curTime + signedDelta c d
  (resamp (lookupStore store key) curPos, (curTime, key))

/-- State of one Phase B composition: current position time, current position
field, and the trace of loads `(current time at load, file key)`. -/
structure CompState where
  curTime : ℚ
  curPos : Grid
  loads : List (ℚ × ℚ)

/-- The inner loop body of Phase B (lines 151-156): interpolate, set the new
current position, then `UpdateTime` (modelled from the spec §4.4d: the current
position time advances by `signedΔt`).  The out-of-bounds flag update of
line 154 lives in the missing `field.hpp` and is absorbed into `resamp`. -/
def compStep (c : Config) (d : Dir) (resamp : Grid → Grid → Grid)
    (store : List StepMapFile) (st : CompState) : CompState :=
  let r := CalculateInterpolatedPosition c d resamp store st.curTime st.curPos
  { curTime := st.curTime + signedDelta c d
    curPos := r.1
    loads := st.loads ++ [r.2] }

/-- `t_final - signed_calc_delta_t * (i+1)` (line 147). -/
def originTimeAt (c : Config) (d : Dir) (i : ℕ) : ℚ :=
  tFinal c d - signedDelta c d * ((i : ℚ) + 1)

/-- The mutable `DiscreteFlowField` state visible to Phase B. -/
structure FlowState where
  initTime : ℚ
  curTime : ℚ
  initPos : Grid
  curPos : Grid

/-- One FTLE output: its filename, its origin/final times, and the trace of
step-map loads used to compose it. -/
structure FTLEWrite where
  name : String
  originTime : ℚ
  finalTime : ℚ
  loads : List (ℚ × ℚ)

/-- One Phase B iteration (lines 145-163).  Lines 146-149 overwrite every
field of the incoming flow state before it is read: `InitialPosition().SetAll`
(uniform grid), `SetInitialTime(t_final - signedΔt·(i+1))` (modelled from the
spec: sets the initial and current position times), and
`CopyInitialPositionToCurrentPosition`.  Then the inner loop runs `i+1` times
(`for (int ii = 0; ii <= i; ii++)`), and one FTLE field is written with
`CreateFTLEFileName` (lines 158-162). -/
def phaseBBody (c : Config) (d : Dir) (resamp : Grid → Grid → Grid)
    (store : List StepMapFile) (st : FlowState) (i : ℕ) : FlowState × FTLEWrite :=
  let st1 : FlowState := { st with initPos := uniformGrid c }
  let t0 := originTimeAt c d i
  let st2 : FlowState := { st1 with initTime := t0, curTime := t0 }
  let st3 : FlowState := { st2 with curPos := st2.initPos }
  let comp0 : CompState := { curTime := st3.curTime, curPos := st3.curPos, loads := [] }
  let comp := (compStep c d resamp store)^[i + 1] comp0
  let w : FTLEWrite :=
    { name := CreateFTLEFileName ftlePath c.filePref (signPref d) (runPrecision c) d
        st3.initTime comp.curTime
      originTime := st3.initTime
      finalTime := comp.curTime
      loads := comp.loads }
  ({ st3 with curTime := comp.curTime, curPos := comp.curPos }, w)

/-- Phase B (lines 145-164), threading the flow-field state through the
iterations in source order. -/
def phaseBRun (c : Config) (d : Dir) (resamp : Grid → Grid → Grid)
    (store : List StepMapFile) : FlowState → List ℕ → List FTLEWrite
  | _, [] => []
  | st, i :: rest =>
      (phaseBBody c d resamp store st i).2 ::
        phaseBRun c d resamp store (phaseBBody c d resamp store st i).1 rest

/-- The FTLE outputs of the whole Phase B loop
(`for (int i = 0; i < steps; i++)`). -/
def phaseBWrites (c : Config) (d : Dir) (resamp : Grid → Grid → Grid)
    (store : List StepMapFile) (st0 : FlowState) : List FTLEWrite :=
  phaseBRun c d resamp store st0 (List.range c.steps.toNat)

/-- The flow-field state as Phase A leaves it. -/
def initFlowState (c : Config) (d : Dir) : FlowState :=
  { initTime := tInitial c d
    curTime := tInitial c d + signedDelta c d * (c.steps.toNat : ℚ)
    initPos := uniformGrid c
    curPos := uniformGrid c }

/-- The FTLE output of Phase B iteration `i` as a pure function of the
configuration and the step-map store. -/
def iterWrite (c : Config) (d : Dir) (resamp : Grid → Grid → Grid)
    (store : List StepMapFile) (i : ℕ) : FTLEWrite :=
  (phaseBBody c d resamp store (initFlowState c d) i).2

/-- Overwrite one cell of a grid. -/
def writeCell (g : Grid) (cell : ℕ × ℕ) (v : ℚ × ℚ) : Grid :=
  fun i j => if (i, j) = cell then v else g i j

/-- Modelled from the spec (§5): the OpenMP-parallel cell loop of the
advector, in the missing headers.  Each cell's update reads only the input
field at its own cell and read-only inputs; `order` is the schedule in which
the threads commit the cells. -/
def parAdvect (cellFn : ℚ → (ℚ × ℚ) → ℚ × ℚ) (order : List (ℕ × ℕ)) :
    ℚ → Grid → Grid :=
  fun t g => order.foldl (fun acc cell => writeCell acc cell (cellFn t (g cell.1 cell.2))) g

/-- Modelled from the spec (§5): the OpenMP-parallel cell loop of the
bilinear resampler, in the missing headers.  Each cell reads the (read-only)
step map and the current position of its own cell. -/
def parResamp (cellFn : Grid → (ℚ × ℚ) → ℚ × ℚ) (order : List (ℕ × ℕ)) :
    Grid → Grid → Grid :=
  fun stepMap g =>
    order.foldl (fun acc cell => writeCell acc cell (cellFn stepMap (g cell.1 cell.2))) g

/-- Which stream a diagnostic goes to. -/
inductive StreamTag
  | out
  | err
deriving DecidableEq

/-- Observable outcome of a run: process exit code and diagnostics. -/
structure Outcome where
  exitCode : ℕ
  msgs : List (StreamTag × String)
deriving DecidableEq

/-- Line 42 (`std::cerr`). -/
def cfgOpenMsg : String := "Error: unable to open file 'sim_params.json'"

/-- Line 110 — printed with `std::cout`, not `std::cerr`. -/
def dirMsg : String := "Direction must be set either to 'forward' or 'backward'"

/-- Modelled from the spec (§7, IOError): fatal, one line on the error
stream. -/
def ioMsg : String := "Error: I/O failure"

/-- `main` (lines 29-174) at the level of exit codes and diagnostics.
`openOk` is whether `sim_params.json` opened (lines 40-44); `ioOk` abstracts
all later file I/O (missing `io.hpp`; modelled from the spec §7: an IOError is
fatal with exit code 1 and a single-line diagnostic on the error stream).  A
document missing a recognized key makes the uncaught `nlohmann` exception call
`std::terminate`, so the process dies by SIGABRT (status 134), not by a clean
`return 1`. -/
def mainModel (openOk : Bool) (doc : List (String × JVal)) (ioOk : Bool) : Outcome :=
  if openOk = false then { exitCode := 1, msgs := [(StreamTag.err, cfgOpenMsg)] }
  else
    match readConfig doc with
    | none => { exitCode := 134, msgs := [] }
    | some c =>
      match dirOf c with
      | none => { exitCode := 1, msgs := [(StreamTag.out, dirMsg)] }
      | some _ =>
        if ioOk then { exitCode := 0, msgs := [] }
        else { exitCode := 1, msgs := [(StreamTag.err, ioMsg)] }

/-! ### Concrete fixtures for witnesses and counterexamples -/

/-- A small concrete forward run: `t ∈ [0, 2]`, `steps = 2`, `Δt = 1`. -/
def cfg2 : Config :=
  { x_min := 0, x_max := 2, y_min := 0, y_max := 1, nx := 4, ny := 3,
    data_nx := 4, data_ny := 3, t_min := 0, t_max := 2, data_delta_t := 1,
    steps := 2, filePref := "double_gyre_", direction := "forward" }

/-- The same run with `steps = 0`. -/
def cfg0 : Config := { cfg2 with steps := 0 }

/-- A concrete stand-in for the abstract one-step advection. -/
def advId : ℚ → Grid → Grid := fun _ g => g

/-- A concrete stand-in for the abstract bilinear resampling. -/
def rsId : Grid → Grid → Grid := fun _ g => g

/-- The configuration document of the repository README. -/
def fullDoc : List (String × JVal) :=
  [("x_min", JVal.num 0), ("x_max", JVal.num 2), ("y_min", JVal.num 0),
   ("y_max", JVal.num 1), ("nx", JVal.num 500), ("ny", JVal.num 250),
   ("data_nx", JVal.num 500), ("data_ny", JVal.num 250), ("t_min", JVal.num 0),
   ("t_max", JVal.num 20), ("data_delta_t", JVal.num (1 / 5)),
   ("steps", JVal.num 100), ("file_prefix", JVal.str "double_gyre_"),
   ("direction", JVal.str "forward")]

/-- The same document with an invalid `direction`. -/
def badDirDoc : List (String × JVal) :=
  [("x_min", JVal.num 0), ("x_max", JVal.num 2), ("y_min", JVal.num 0),
   ("y_max", JVal.num 1), ("nx", JVal.num 500), ("ny", JVal.num 250),
   ("data_nx", JVal.num 500), ("data_ny", JVal.num 250), ("t_min", JVal.num 0),
   ("t_max", JVal.num 20), ("data_delta_t", JVal.num (1 / 5)),
   ("steps", JVal.num 100), ("file_prefix", JVal.str "double_gyre_"),
   ("direction", JVal.str "sideways")]

/-- The configuration `readConfig` extracts from `fullDoc`. -/
def cfgF : Config :=
  { x_min := 0, x_max := 2, y_min := 0, y_max := 1, nx := 500, ny := 250,
    data_nx := 500, data_ny := 250, t_min := 0, t_max := 20,
    data_delta_t := 1 / 5, steps := truncQ 100, filePref := "double_gyre_",
    direction := "forward" }

/-- Two thread schedules covering the same two cells in opposite orders. -/
def ordA : List (ℕ × ℕ) := [(0, 0), (0, 1)]

/-- See `ordA`. -/
def ordB : List (ℕ × ℕ) := [(0, 1), (0, 0)]

/-- A concrete per-cell advection update. -/
def cellA0 : ℚ → (ℚ × ℚ) → ℚ × ℚ := fun _ p => p

/-- A concrete per-cell resampling update. -/
def cellR0 : Grid → (ℚ × ℚ) → ℚ × ℚ := fun _ p => p

/-! ### Lemmas about `GetPrecision` -/

theorem den_one_cast_num (q : ℚ) (h : q.den = 1) : (q.num : ℚ) = q := by
  conv_rhs => rw [← Rat.num_div_den q]
  rw [h]
  simp

theorem one_le_pow_q (a : ℚ) (ha : 1 ≤ a) (n : ℕ) : (1 : ℚ) ≤ a ^ n := by
  calc (1 : ℚ) = 1 ^ n := (one_pow n).symm
  _ ≤ a ^ n := pow_le_pow_left₀ (by norm_num) ha n

theorem truncQ_in_range (q : ℚ) (hlo : -(2 ^ 63) - 1 < q) (hhi : q < 2 ^ 63) :
    truncQ q = if q < 0 then ⌈q⌉ else ⌊q⌋ := by
  unfold truncQ
  rw [if_pos ⟨hhi, hlo⟩]

theorem truncQ_out_of_range (q : ℚ) (h : ¬ (q < 2 ^ 63 ∧ -(2 ^ 63) - 1 < q)) :
    truncQ q = -(2 ^ 63) := by
  unfold truncQ
  rw [if_neg h]

/-- A non-integer double always keeps the loop guard
`std::abs(num - (long long)num) > 0` true, whatever the cast returns. -/
theorem guard_of_den_ne (q : ℚ) (h : q.den ≠ 1) : 0 < |q - (truncQ q : ℚ)| := by
  rw [abs_pos, sub_ne_zero]
  intro heq
  apply h
  rw [heq]
  exact Rat.den_intCast _

/-- When the guard is false the value equals the cast result, hence is an
integer. -/
theorem den_one_of_no_guard (q : ℚ) (h : ¬ 0 < |q - (truncQ q : ℚ)|) :
    q.den = 1 := by
  have h0 : |q - (truncQ q : ℚ)| = 0 := le_antisymm (not_lt.mp h) (abs_nonneg _)
  have heq : q = ((truncQ q : ℤ) : ℚ) := sub_eq_zero.mp (abs_eq_zero.mp h0)
  rw [heq]
  exact Rat.den_intCast _

/-- For an integer value in `long long` range the cast is exact and the guard
is false. -/
theorem no_guard_of_den_one (q : ℚ) (hden : q.den = 1)
    (hlo : -(2 ^ 63) - 1 < q) (hhi : q < 2 ^ 63) :
    ¬ 0 < |q - (truncQ q : ℚ)| := by
  have hq := den_one_cast_num q hden
  have htr : ((truncQ q : ℤ) : ℚ) = q := by
    rw [truncQ_in_range q hlo hhi]
    split
    · rw [← hq, Int.ceil_intCast]
    · rw [← hq, Int.floor_intCast]
  rw [htr]
  simp

/-- At or above `2^63` the cast is out of range (`INT64_MIN`), so the guard
stays true even on integer values. -/
theorem guard_of_big (q : ℚ) (hq : 2 ^ 63 ≤ q) : 0 < |q - (truncQ q : ℚ)| := by
  have htr : truncQ q = -(2 ^ 63) :=
    truncQ_out_of_range q (fun hc => absurd hq (not_le.mpr hc.1))
  rw [htr]
  have hpos : (0 : ℚ) < q - ((-(2 ^ 63) : ℤ) : ℚ) := by
    push_cast
    have h63 : (0 : ℚ) < 2 ^ 63 := by positivity
    linarith
  rw [abs_of_pos hpos]
  exact hpos

/-- At or below `-2^63 - 1` the cast is likewise out of range. -/
theorem guard_of_neg_big (q : ℚ) (hq : q ≤ -(2 ^ 63) - 1) :
    0 < |q - (truncQ q : ℚ)| := by
  have htr : truncQ q = -(2 ^ 63) :=
    truncQ_out_of_range q (fun hc => absurd hq (not_le.mpr hc.2))
  rw [htr]
  have hneg : q - ((-(2 ^ 63) : ℤ) : ℚ) < 0 := by
    push_cast
    linarith
  rw [abs_of_neg hneg]
  linarith

/-- Once the value reaches `2^63` the loop never exits: the guard stays true
and `num *= 10` only grows the value. -/
theorem getPrecisionFuel_none_of_big :
    ∀ (f : ℕ) (q : ℚ), 2 ^ 63 ≤ q → getPrecisionFuel f q = none := by
  intro f
  induction f with
  | zero =>
    intro q hq
    unfold getPrecisionFuel
    rw [if_pos (guard_of_big q hq)]
  | succ n ih =>
    intro q hq
    unfold getPrecisionFuel
    rw [if_pos (guard_of_big q hq), ih (q * 10) (by linarith)]
    rfl

/-- Symmetrically for values at or below `-2^63 - 1`. -/
theorem getPrecisionFuel_none_of_neg_big :
    ∀ (f : ℕ) (q : ℚ), q ≤ -(2 ^ 63) - 1 → getPrecisionFuel f q = none := by
  intro f
  induction f with
  | zero =>
    intro q hq
    unfold getPrecisionFuel
    rw [if_pos (guard_of_neg_big q hq)]
  | succ n ih =>
    intro q hq
    unfold getPrecisionFuel
    rw [if_pos (guard_of_neg_big q hq), ih (q * 10) (by linarith)]
    rfl

theorem getPrecisionFuel_den_one (q : ℚ) (h : q.den = 1)
    (hlo : -(2 ^ 63) - 1 < q) (hhi : q < 2 ^ 63) (f : ℕ) :
    getPrecisionFuel f q = some 0 := by
  have hc := no_guard_of_den_one q h hlo hhi
  cases f <;> simp [getPrecisionFuel, hc]

/-- The loop returns the first `p` making `q · 10^p` an integer: correctness
and minimality.  (When the loop exits at all, every examined iterate was in
`long long` range: an out-of-range iterate keeps the guard true forever.) -/
theorem getPrecisionFuel_correct :
    ∀ (f : ℕ) (q : ℚ) (p : ℕ), getPrecisionFuel f q = some p →
      (q * 10 ^ p).den = 1 ∧ ∀ k, k < p → (q * 10 ^ k).den ≠ 1 := by
  intro f
  induction f with
  | zero =>
    intro q p hp
    unfold getPrecisionFuel at hp
    by_cases hc : 0 < |q - (truncQ q : ℚ)|
    · simp [hc] at hp
    · simp [hc] at hp
      subst hp
      refine ⟨by simpa using den_one_of_no_guard q hc, ?_⟩
      intro k hk
      omega
  | succ n ih =>
    intro q p hp
    unfold getPrecisionFuel at hp
    by_cases hc : 0 < |q - (truncQ q : ℚ)|
    · simp only [hc, if_pos, Option.map_eq_some'] at hp
      obtain ⟨p', hp', rfl⟩ := hp
      obtain ⟨h1, h2⟩ := ih (q * 10) p' hp'
      have he : ∀ m : ℕ, q * 10 * 10 ^ m = q * 10 ^ (m + 1) := by
        intro m
        ring
      constructor
      · rw [← he]
        exact h1
      · intro k hk
        cases k with
        | zero =>
          intro hden0
          have hden : q.den = 1 := by simpa using hden0
          rcases lt_or_le q (2 ^ 63) with hlt | hge
          · rcases lt_or_le (-(2 ^ 63) - 1 : ℚ) q with hgt | hle
            · exact (no_guard_of_den_one q hden hgt hlt) hc
            · have hnone : getPrecisionFuel n (q * 10) = none :=
                getPrecisionFuel_none_of_neg_big n (q * 10) (by linarith)
              rw [hnone] at hp'
              exact Option.noConfusion hp'
          · have hnone : getPrecisionFuel n (q * 10) = none :=
              getPrecisionFuel_none_of_big n (q * 10) (by linarith)
            rw [hnone] at hp'
            exact Option.noConfusion hp'
        | succ k' =>
          rw [← he]
          exact h2 k' (by omega)
    · simp [hc] at hp
      subst hp
      refine ⟨by simpa using den_one_of_no_guard q hc, ?_⟩
      intro k hk
      omega

/-- Fuel `e` suffices for a non-negative `a / 2^e` whose decimal shifts stay
in `long long` range (`a·5^e < 2^63`): exact decimal shifting terminates. -/
theorem getPrecisionFuel_dyadic :
    ∀ (e : ℕ) (a : ℤ), 0 ≤ a → ((a : ℚ)) * 5 ^ e < 2 ^ 63 →
      ∀ f : ℕ, e ≤ f →
      ∃ p, p ≤ e ∧ getPrecisionFuel f ((a : ℚ) / 2 ^ e) = some p := by
  intro e
  induction e with
  | zero =>
    intro a ha hB f _
    refine ⟨0, le_refl 0, ?_⟩
    have hone : ((a : ℚ)) / 2 ^ 0 = (a : ℚ) := by norm_num
    rw [hone]
    have hnn : (0 : ℚ) ≤ (a : ℚ) := by exact_mod_cast ha
    apply getPrecisionFuel_den_one
    · exact Rat.den_intCast a
    · have h63 : (0 : ℚ) < 2 ^ 63 := by positivity
      linarith
    · simpa using hB
  | succ n ih =>
    intro a ha hB f hf
    have hnn : (0 : ℚ) ≤ (a : ℚ) := by exact_mod_cast ha
    have hqnn : (0 : ℚ) ≤ (a : ℚ) / 2 ^ (n + 1) :=
      div_nonneg hnn (by positivity)
    have hqlt : (a : ℚ) / 2 ^ (n + 1) < 2 ^ 63 := by
      have h1 : (a : ℚ) / 2 ^ (n + 1) ≤ (a : ℚ) :=
        div_le_self hnn (one_le_pow_q 2 (by norm_num) (n + 1))
      have h2 : (a : ℚ) ≤ (a : ℚ) * 5 ^ (n + 1) :=
        le_mul_of_one_le_right hnn (one_le_pow_q 5 (by norm_num) (n + 1))
      linarith
    by_cases hden : ((a : ℚ) / 2 ^ (n + 1)).den = 1
    · refine ⟨0, Nat.zero_le _, ?_⟩
      apply getPrecisionFuel_den_one _ hden _ hqlt
      have h63 : (0 : ℚ) < 2 ^ 63 := by positivity
      linarith
    · obtain ⟨f', rfl⟩ : ∃ f', f = f' + 1 := ⟨f - 1, by omega⟩
      have hc : 0 < |((a : ℚ) / 2 ^ (n + 1)) - (truncQ ((a : ℚ) / 2 ^ (n + 1)) : ℚ)| :=
        guard_of_den_ne _ hden
      have hmul : ((a : ℚ) / 2 ^ (n + 1)) * 10 = ((5 * a : ℤ) : ℚ) / 2 ^ n := by
        push_cast
        have h2 : (2 : ℚ) ^ (n + 1) ≠ 0 := by positivity
        have h2' : (2 : ℚ) ^ n ≠ 0 := by positivity
        field_simp
        ring
      have hB' : (((5 * a : ℤ) : ℚ)) * 5 ^ n < 2 ^ 63 := by
        have he5 : (((5 * a : ℤ) : ℚ)) * 5 ^ n = ((a : ℚ)) * 5 ^ (n + 1) := by
          push_cast
          ring
        rw [he5]
        exact hB
      obtain ⟨p, hp, hsome⟩ :=
        ih (5 * a) (by linarith) hB' f' (by omega)
      refine ⟨p + 1, by omega, ?_⟩
      unfold getPrecisionFuel
      rw [if_pos hc, hmul, hsome]
      rfl

/-- The denominator of a finite double is a power of two, `j < 2^j`, and the
iterate bound transfers from `m / 2^e` to the reduced form, so the `q.den`
fuel of `GetPrecision` suffices for non-negative dyadics in range. -/
theorem GetPrecision_dyadic_some (m : ℕ) (e : ℕ)
    (hB : ((m : ℚ)) * 5 ^ e < 2 ^ 63) :
    ∃ p, p ≤ e ∧ GetPrecision ((m : ℚ) / 2 ^ e) = some p := by
  set q : ℚ := (m : ℚ) / 2 ^ e with hq
  have hdvd : q.den ∣ 2 ^ e := by
    have h1 : q = Rat.divInt (m : ℤ) (2 ^ e) := by
      rw [Rat.divInt_eq_div]
      push_cast
      rfl
    have h2 := Rat.den_dvd (m : ℤ) (2 ^ e)
    rw [← h1] at h2
    have h3 : ((2 : ℤ) ^ e) = ((2 ^ e : ℕ) : ℤ) := by push_cast; rfl
    rw [h3] at h2
    exact_mod_cast h2
  obtain ⟨j, hj, hjden⟩ := (Nat.dvd_prime_pow Nat.prime_two).mp hdvd
  have hqnn : 0 ≤ q := by
    rw [hq]
    positivity
  have hnumnn : 0 ≤ q.num := Rat.num_nonneg.mpr hqnn
  have hnum : q = ((q.num : ℤ) : ℚ) / 2 ^ j := by
    conv_lhs => rw [← Rat.num_div_den q]
    rw [hjden]
    push_cast
    rfl
  have h2j : (0 : ℚ) < 2 ^ j := by positivity
  have hnum2 : ((q.num : ℤ) : ℚ) = q * 2 ^ j := by
    conv_rhs => rw [hnum]
    rw [div_mul_cancel₀ _ (ne_of_gt h2j)]
  have h10j : (10 : ℚ) ^ j = 2 ^ j * 5 ^ j := by
    rw [← mul_pow]
    norm_num
  have h10e : (10 : ℚ) ^ e = 5 ^ e * 2 ^ e := by
    rw [← mul_pow]
    norm_num
  have hfin : q * 10 ^ e = (m : ℚ) * 5 ^ e := by
    have h2e : (2 : ℚ) ^ e ≠ 0 := by positivity
    rw [hq, h10e]
    field_simp
    ring
  have htrans : ((q.num : ℤ) : ℚ) * 5 ^ j < 2 ^ 63 := by
    calc ((q.num : ℤ) : ℚ) * 5 ^ j = q * 10 ^ j := by
          rw [hnum2, h10j]
          ring
    _ ≤ q * 10 ^ e := by
          apply mul_le_mul_of_nonneg_left _ hqnn
          exact pow_le_pow_right₀ (by norm_num) hj
    _ = (m : ℚ) * 5 ^ e := hfin
    _ < 2 ^ 63 := hB
  have hfuel : j ≤ q.den := by
    rw [hjden]
    exact le_of_lt (Nat.lt_two_pow j)
  obtain ⟨p, hp, hsome⟩ :=
    getPrecisionFuel_dyadic j q.num hnumnn htrans q.den hfuel
  refine ⟨p, le_trans hp hj, ?_⟩
  unfold GetPrecision
  rw [← hnum] at hsome
  exact hsome

/-- Unfolding step for concrete `GetPrecision` computations. -/
theorem getPrecisionFuel_step (f : ℕ) (q : ℚ) (p : ℕ) (h : q.den ≠ 1) (q' : ℚ)
    (hq : q * 10 = q') (h2 : getPrecisionFuel f q' = some p) :
    getPrecisionFuel (f + 1) q = some (p + 1) := by
  have hc : 0 < |q - (truncQ q : ℚ)| := guard_of_den_ne q h
  unfold getPrecisionFuel
  rw [if_pos hc, hq, h2]
  rfl

/-! ### Basic facts about the run parameters -/

theorem steps_pos_of_lt_toNat (c : Config) (i : ℕ) (hi : i < c.steps.toNat) :
    0 < c.steps := by
  rcases le_or_lt c.steps 0 with h | h
  · rw [Int.toNat_of_nonpos h] at hi
    omega
  · exact h

theorem cast_toNat_eq (c : Config) (hs : 0 < c.steps) :
    ((c.steps.toNat : ℕ) : ℚ) = (c.steps : ℚ) := by
  exact_mod_cast congrArg (fun z : ℤ => (z : ℚ)) (Int.toNat_of_nonneg hs.le)

theorem calcDelta_pos (c : Config) (hlt : c.t_min < c.t_max) (hs : 0 < c.steps) :
    0 < calcDelta c := by
  unfold calcDelta
  apply div_pos (by linarith)
  exact_mod_cast hs

theorem signedDelta_ne_zero (c : Config) (d : Dir) (hlt : c.t_min < c.t_max)
    (hs : 0 < c.steps) : signedDelta c d ≠ 0 := by
  have h := calcDelta_pos c hlt hs
  cases d <;> simp [signedDelta] <;> linarith

/-- `t_final = t_initial + signedΔt · steps` for a valid run. -/
theorem tFinal_eq (c : Config) (d : Dir) (hs : 0 < c.steps) :
    tFinal c d = tInitial c d + signedDelta c d * (c.steps.toNat : ℚ) := by
  have h1 := cast_toNat_eq c hs
  have h2 : (c.steps : ℚ) ≠ 0 := Int.cast_ne_zero.mpr hs.ne'
  cases d <;>
    simp only [tFinal, tInitial, signedDelta, calcDelta] <;>
    rw [h1] <;> field_simp

/-! ### Phase A closed forms -/

theorem phaseAStep_time (c : Config) (d : Dir) (advect : ℚ → Grid → Grid)
    (st : PhaseAState) :
    (phaseAStep c d advect st).time = st.time + signedDelta c d := rfl

theorem phaseAStep_pos (c : Config) (d : Dir) (advect : ℚ → Grid → Grid)
    (st : PhaseAState) :
    (phaseAStep c d advect st).pos = uniformGrid c := rfl

theorem phaseAStep_store (c : Config) (d : Dir) (advect : ℚ → Grid → Grid)
    (st : PhaseAState) :
    (phaseAStep c d advect st).store = st.store ++
      [{ key := st.time + signedDelta c d
         name := CreateFileName stepMapsPath c.filePref (signPref d) (runPrecision c)
           (st.time + signedDelta c d)
         content := advect st.time st.pos }] := rfl

theorem phaseA_pos (c : Config) (d : Dir) (advect : ℚ → Grid → Grid) (k : ℕ) :
    ((phaseAStep c d advect)^[k] (phaseAInit c d)).pos = uniformGrid c := by
  cases k with
  | zero => rfl
  | succ n => rw [Function.iterate_succ_apply', phaseAStep_pos]

theorem phaseA_time (c : Config) (d : Dir) (advect : ℚ → Grid → Grid) (k : ℕ) :
    ((phaseAStep c d advect)^[k] (phaseAInit c d)).time
      = tInitial c d + signedDelta c d * (k : ℚ) := by
  induction k with
  | zero => simp [phaseAInit]
  | succ n ih =>
    rw [Function.iterate_succ_apply', phaseAStep_time, ih]
    push_cast
    ring

theorem phaseA_store (c : Config) (d : Dir) (advect : ℚ → Grid → Grid) (k : ℕ) :
    ((phaseAStep c d advect)^[k] (phaseAInit c d)).store
      = idFileOf c d :: (List.range k).map (stepFileAt c d advect) := by
  induction k with
  | zero => simp [phaseAInit]
  | succ n ih =>
    rw [Function.iterate_succ_apply', phaseAStep_store, ih,
      phaseA_time c d advect n, phaseA_pos c d advect n,
      List.range_succ, List.map_append, List.cons_append]
    have hkey : tInitial c d + signedDelta c d * (n : ℚ) + signedDelta c d
        = tInitial c d + signedDelta c d * ((n : ℚ) + 1) := by ring
    simp only [List.map_cons, List.map_nil, stepFileAt, hkey]

theorem phaseARun_store (c : Config) (d : Dir) (advect : ℚ → Grid → Grid) :
    (phaseARun c d advect).store
      = idFileOf c d :: (List.range c.steps.toNat).map (stepFileAt c d advect) :=
  phaseA_store c d advect c.steps.toNat

/-! ### Phase B closed forms -/

theorem compStep_curTime (c : Config) (d : Dir) (resamp : Grid → Grid → Grid)
    (store : List StepMapFile) (st : CompState) :
    (compStep c d resamp store st).curTime = st.curTime + signedDelta c d := rfl

theorem compStep_loads (c : Config) (d : Dir) (resamp : Grid → Grid → Grid)
    (store : List StepMapFile) (st : CompState) :
    (compStep c d resamp store st).loads
      = st.loads ++ [(st.curTime, st.curTime + signedDelta c d)] := rfl

theorem compIter_curTime (c : Config) (d : Dir) (resamp : Grid → Grid → Grid)
    (store : List StepMapFile) (st : CompState) (k : ℕ) :
    ((compStep c d resamp store)^[k] st).curTime
      = st.curTime + signedDelta c d * (k : ℚ) := by
  induction k with
  | zero => simp
  | succ n ih =>
    rw [Function.iterate_succ_apply', compStep_curTime, ih]
    push_cast
    ring

theorem compIter_loads (c : Config) (d : Dir) (resamp : Grid → Grid → Grid)
    (store : List StepMapFile) (t0 : ℚ) (g : Grid) (k : ℕ) :
    ((compStep c d resamp store)^[k] { curTime := t0, curPos := g, loads := [] }).loads
      = (List.range k).map (fun r : ℕ =>
          (t0 + signedDelta c d * (r : ℚ), t0 + signedDelta c d * ((r : ℚ) + 1))) := by
  induction k with
  | zero => simp
  | succ n ih =>
    rw [Function.iterate_succ_apply', compStep_loads, ih,
      compIter_curTime c d resamp store { curTime := t0, curPos := g, loads := [] } n,
      List.range_succ, List.map_append]
    simp only [List.map_cons, List.map_nil]
    congr 2
    ring_nf


/-- Lines 146-149 overwrite every field of the flow state before it is read,
so a Phase B iteration does not depend on the state left by the previous
iterations. -/
theorem phaseBBody_const (c : Config) (d : Dir) (resamp : Grid → Grid → Grid)
    (store : List StepMapFile) (st st' : FlowState) (i : ℕ) :
    phaseBBody c d resamp store st i = phaseBBody c d resamp store st' i := rfl

theorem phaseBRun_eq_map (c : Config) (d : Dir) (resamp : Grid → Grid → Grid)
    (store : List StepMapFile) (l : List ℕ) :
    ∀ st : FlowState, phaseBRun c d resamp store st l
      = l.map (iterWrite c d resamp store) := by
  induction l with
  | nil => intro st; rfl
  | cons a t ih =>
    intro st
    show (phaseBBody c d resamp store st a).2 :: phaseBRun c d resamp store _ t = _
    rw [ih, List.map_cons,
      phaseBBody_const c d resamp store st (initFlowState c d) a]
    rfl

theorem phaseBWrites_eq_map (c : Config) (d : Dir) (resamp : Grid → Grid → Grid)
    (store : List StepMapFile) (st0 : FlowState) :
    phaseBWrites c d resamp store st0
      = (List.range c.steps.toNat).map (iterWrite c d resamp store) :=
  phaseBRun_eq_map c d resamp store (List.range c.steps.toNat) st0

theorem iterWrite_originTime (c : Config) (d : Dir) (resamp : Grid → Grid → Grid)
    (store : List StepMapFile) (i : ℕ) :
    (iterWrite c d resamp store i).originTime = originTimeAt c d i := rfl

theorem iterWrite_finalTime (c : Config) (d : Dir) (resamp : Grid → Grid → Grid)
    (store : List StepMapFile) (i : ℕ) :
    (iterWrite c d resamp store i).finalTime
      = originTimeAt c d i + signedDelta c d * ((i : ℚ) + 1) := by
  show ((compStep c d resamp store)^[i + 1]
      { curTime := originTimeAt c d i, curPos := uniformGrid c, loads := [] }).curTime = _
  rw [compIter_curTime]
  push_cast
  ring

theorem iterWrite_loads (c : Config) (d : Dir) (resamp : Grid → Grid → Grid)
    (store : List StepMapFile) (i : ℕ) :
    (iterWrite c d resamp store i).loads
      = (List.range (i + 1)).map (fun r : ℕ =>
          (originTimeAt c d i + signedDelta c d * (r : ℚ),
           originTimeAt c d i + signedDelta c d * ((r : ℚ) + 1))) := by
  show ((compStep c d resamp store)^[i + 1]
      { curTime := originTimeAt c d i, curPos := uniformGrid c, loads := [] }).loads = _
  rw [compIter_loads]

theorem iterWrite_name (c : Config) (d : Dir) (resamp : Grid → Grid → Grid)
    (store : List StepMapFile) (i : ℕ) :
    (iterWrite c d resamp store i).name
      = CreateFTLEFileName ftlePath c.filePref (signPref d) (runPrecision c) d
          (originTimeAt c d i)
          (originTimeAt c d i + signedDelta c d * ((i : ℚ) + 1)) := by
  show CreateFTLEFileName ftlePath c.filePref (signPref d) (runPrecision c) d
      (originTimeAt c d i)
      ((compStep c d resamp store)^[i + 1]
        { curTime := originTimeAt c d i, curPos := uniformGrid c, loads := [] }).curTime = _
  rw [compIter_curTime]
  push_cast
  ring_nf

/-! ### Locating a file in the step-map store -/

theorem findUnique {α : Type} (p : α → Bool) (x : α) :
    ∀ l : List α, x ∈ l → p x = true → (∀ y ∈ l, p y = true → y = x) →
      l.find? p = some x := by
  intro l
  induction l with
  | nil => intro h; exact absurd h (List.not_mem_nil x)
  | cons a t ih =>
    intro hmem hpx huniq
    by_cases hpa : p a = true
    · rw [List.find?_cons_of_pos _ hpa, huniq a (List.mem_cons_self a t) hpa]
    · rw [List.find?_cons_of_neg _ (by simp [hpa])]
      have hmem' : x ∈ t := by
        rcases List.mem_cons.mp hmem with h | h
        · exact absurd (h ▸ hpx) hpa
        · exact h
      exact ih hmem' hpx (fun y hy hpy => huniq y (List.mem_cons_of_mem a hy) hpy)

/-- Reading back by key from the Phase A store: the file keyed
`t_initial + (j+1)·signedΔt` holds the one-step advection seeded at
`t_initial + j·signedΔt`, and the identity file is not confused with it. -/
theorem lookupStore_key (c : Config) (d : Dir) (advect : ℚ → Grid → Grid)
    (hd : signedDelta c d ≠ 0) (N j : ℕ) (hj : j < N) :
    lookupStore (idFileOf c d :: (List.range N).map (stepFileAt c d advect))
        (tInitial c d + signedDelta c d * ((j : ℚ) + 1))
      = advect (tInitial c d + signedDelta c d * (j : ℚ)) (uniformGrid c) := by
  have hkey : ∀ s t : ℕ,
      tInitial c d + signedDelta c d * ((s : ℚ) + 1)
        = tInitial c d + signedDelta c d * ((t : ℚ) + 1) → s = t := by
    intro s t h
    have h2 : signedDelta c d * ((s : ℚ) + 1) = signedDelta c d * ((t : ℚ) + 1) := by
      linarith
    have h3 : ((s : ℚ) + 1) = ((t : ℚ) + 1) := mul_left_cancel₀ hd h2
    have h4 : (s : ℚ) = (t : ℚ) := by linarith
    exact_mod_cast h4
  have hid : ¬ ((idFileOf c d).key
      = tInitial c d + signedDelta c d * ((j : ℚ) + 1)) := by
    simp only [idFileOf]
    intro h
    have h2 : signedDelta c d * ((j : ℚ) + 1) = 0 := by linarith
    rcases mul_eq_zero.mp h2 with h3 | h3
    · exact hd h3
    · have h5 : (0 : ℚ) < (j : ℚ) + 1 := by positivity
      linarith
  unfold lookupStore
  rw [List.find?_cons_of_neg _ (by simp [hid])]
  rw [findUnique _ (stepFileAt c d advect j)]
  · rfl
  · exact List.mem_map_of_mem _ (List.mem_range.mpr hj)
  · simp [stepFileAt]
  · intro y hy hpy
    obtain ⟨s, _, rfl⟩ := List.mem_map.mp hy
    have hs : (stepFileAt c d advect s).key
        = tInitial c d + signedDelta c d * ((j : ℚ) + 1) := by
      simpa [stepFileAt] using hpy
    have heq : s = j := hkey s j (by simpa [stepFileAt] using hs)
    rw [heq]

/-! ### Order-invariance of the parallel cell loops -/

theorem foldl_writeCell (f : ℕ × ℕ → ℚ × ℚ) :
    ∀ (l : List (ℕ × ℕ)) (g0 : Grid) (i j : ℕ),
      (l.foldl (fun acc cell => writeCell acc cell (f cell)) g0) i j
        = if (i, j) ∈ l then f (i, j) else g0 i j := by
  intro l
  induction l with
  | nil => intro g0 i j; simp
  | cons a t ih =>
    intro g0 i j
    show (t.foldl (fun acc cell => writeCell acc cell (f cell))
        (writeCell g0 a (f a))) i j = _
    rw [ih]
    by_cases hmem : (i, j) ∈ t
    · simp [hmem, List.mem_cons]
    · by_cases heq : (i, j) = a
      · simp [hmem, heq, writeCell, List.mem_cons]
      · simp [hmem, heq, writeCell, List.mem_cons]

theorem parAdvect_order_inv (cellFn : ℚ → (ℚ × ℚ) → ℚ × ℚ)
    (o₁ o₂ : List (ℕ × ℕ)) (h : ∀ x, x ∈ o₁ ↔ x ∈ o₂) :
    parAdvect cellFn o₁ = parAdvect cellFn o₂ := by
  funext t g i j
  show (o₁.foldl (fun acc cell => writeCell acc cell (cellFn t (g cell.1 cell.2))) g) i j
    = (o₂.foldl (fun acc cell => writeCell acc cell (cellFn t (g cell.1 cell.2))) g) i j
  have h1 := foldl_writeCell (fun cell => cellFn t (g cell.1 cell.2)) o₁ g i j
  have h2 := foldl_writeCell (fun cell => cellFn t (g cell.1 cell.2)) o₂ g i j
  rw [h1, h2]
  by_cases hm : (i, j) ∈ o₁
  · rw [if_pos hm, if_pos ((h (i, j)).mp hm)]
  · rw [if_neg hm, if_neg (fun hc => hm ((h (i, j)).mpr hc))]

theorem parResamp_order_inv (cellFn : Grid → (ℚ × ℚ) → ℚ × ℚ)
    (o₁ o₂ : List (ℕ × ℕ)) (h : ∀ x, x ∈ o₁ ↔ x ∈ o₂) :
    parResamp cellFn o₁ = parResamp cellFn o₂ := by
  funext sm g i j
  show (o₁.foldl (fun acc cell => writeCell acc cell (cellFn sm (g cell.1 cell.2))) g) i j
    = (o₂.foldl (fun acc cell => writeCell acc cell (cellFn sm (g cell.1 cell.2))) g) i j
  have h1 := foldl_writeCell (fun cell => cellFn sm (g cell.1 cell.2)) o₁ g i j
  have h2 := foldl_writeCell (fun cell => cellFn sm (g cell.1 cell.2)) o₂ g i j
  rw [h1, h2]
  by_cases hm : (i, j) ∈ o₁
  · rw [if_pos hm, if_pos ((h (i, j)).mp hm)]
  · rw [if_neg hm, if_neg (fun hc => hm ((h (i, j)).mpr hc))]

/-! ### Lemmas about the configuration reader -/

theorem obind_none {α β : Type} (x : Option α) :
    (Option.bind x fun _ => (none : Option β)) = none := by
  cases x <;> rfl

theorem none_bind_eq {α β : Type} (f : α → Option β) :
    Option.bind none f = none := rfl

theorem obind_all_none {α β : Type} (x : Option α) (f : α → Option β)
    (h : ∀ a, f a = none) : Option.bind x f = none := by
  cases x
  · rfl
  · exact h _

theorem jlookup_cons_ne (a : String) (b : JVal) (doc : List (String × JVal))
    (k : String) (h : ¬ a = k) :
    jlookup ((a, b) :: doc) k = jlookup doc k := by
  simp [jlookup, List.find?_cons, h]

/-! ### Claims -/

/-- C10 counterexample: the finite non-negative double `1e19 = 10^19`
(exactly representable, `10^19 = 2^19 · 5^19` with a 45-bit significand) is at
least `2^63`, so the `static_cast<long long>` in the loop guard is out of
range — undefined behavior in C++, `INT64_MIN` under x86's `cvttsd2si`.  The
guard `std::abs(num - (long long)num) > 0` then never becomes false, `num`
only grows, and the loop never exits: `GetPrecision` does not terminate on
every finite non-negative double input. -/
theorem claim_C10_cex :
    getPrecisionDiverges ((10 : ℚ) ^ 19) ∧ (2 : ℚ) ^ 63 ≤ (10 : ℚ) ^ 19 :=
  ⟨fun fuel => getPrecisionFuel_none_of_big fuel _ (by norm_num), by norm_num⟩

/-- C10 (amended: the `long long` cast is bounded, so termination is not
universal): `GetPrecision` terminates and returns a non-negative integer for
every non-negative dyadic double `m / 2^e` whose decimal shifts stay in
`long long` range (`m · 5^e < 2^63`), within at most `e` iterations; for an
input at or above `2^63` the out-of-range cast keeps the loop guard true and
the loop runs forever. -/
theorem claim_C10 (m : ℕ) (e : ℕ) (hB : m * 5 ^ e < 2 ^ 63) :
    ∃ p : ℕ, p ≤ e ∧ GetPrecision ((m : ℚ) / 2 ^ e) = some p := by
  apply GetPrecision_dyadic_some
  exact_mod_cast hB

/-- C10 witness: the double `1/4 = 1/2^2`, whose shifts are bounded by
`5^2 = 25 < 2^63`. -/
theorem claim_C10_witness :
    ∃ p : ℕ, p ≤ 2 ∧ GetPrecision (((1 : ℕ) : ℚ) / 2 ^ 2) = some p :=
  claim_C10 1 2 (by norm_num)

/-- C5 counterexample: the source `GetPrecision` has no cap.  At the exactly
representable double `2^-13 = 1/8192` (all intermediate products exact) it
returns 13, which exceeds the claimed cap of 12. -/
theorem claim_C5_cex : GetPrecision ((1 : ℚ) / 8192) = some 13 ∧ ¬ (13 ≤ 12) := by
  constructor
  · have h13 : getPrecisionFuel 8179 (1220703125 : ℚ) = some 0 :=
      getPrecisionFuel_den_one _ (by norm_num [Rat.den]) (by norm_num) (by norm_num) _
    have h12 : getPrecisionFuel 8180 ((244140625 : ℚ) / 2) = some 1 :=
      getPrecisionFuel_step 8179 _ 0 (by norm_num [Rat.den]) _ (by norm_num) h13
    have h11 : getPrecisionFuel 8181 ((48828125 : ℚ) / 4) = some 2 :=
      getPrecisionFuel_step 8180 _ 1 (by norm_num [Rat.den]) _ (by norm_num) h12
    have h10 : getPrecisionFuel 8182 ((9765625 : ℚ) / 8) = some 3 :=
      getPrecisionFuel_step 8181 _ 2 (by norm_num [Rat.den]) _ (by norm_num) h11
    have h9 : getPrecisionFuel 8183 ((1953125 : ℚ) / 16) = some 4 :=
      getPrecisionFuel_step 8182 _ 3 (by norm_num [Rat.den]) _ (by norm_num) h10
    have h8 : getPrecisionFuel 8184 ((390625 : ℚ) / 32) = some 5 :=
      getPrecisionFuel_step 8183 _ 4 (by norm_num [Rat.den]) _ (by norm_num) h9
    have h7 : getPrecisionFuel 8185 ((78125 : ℚ) / 64) = some 6 :=
      getPrecisionFuel_step 8184 _ 5 (by norm_num [Rat.den]) _ (by norm_num) h8
    have h6 : getPrecisionFuel 8186 ((15625 : ℚ) / 128) = some 7 :=
      getPrecisionFuel_step 8185 _ 6 (by norm_num [Rat.den]) _ (by norm_num) h7
    have h5 : getPrecisionFuel 8187 ((3125 : ℚ) / 256) = some 8 :=
      getPrecisionFuel_step 8186 _ 7 (by norm_num [Rat.den]) _ (by norm_num) h6
    have h4 : getPrecisionFuel 8188 ((625 : ℚ) / 512) = some 9 :=
      getPrecisionFuel_step 8187 _ 8 (by norm_num [Rat.den]) _ (by norm_num) h5
    have h3 : getPrecisionFuel 8189 ((125 : ℚ) / 1024) = some 10 :=
      getPrecisionFuel_step 8188 _ 9 (by norm_num [Rat.den]) _ (by norm_num) h4
    have h2 : getPrecisionFuel 8190 ((25 : ℚ) / 2048) = some 11 :=
      getPrecisionFuel_step 8189 _ 10 (by norm_num [Rat.den]) _ (by norm_num) h3
    have h1 : getPrecisionFuel 8191 ((5 : ℚ) / 4096) = some 12 :=
      getPrecisionFuel_step 8190 _ 11 (by norm_num [Rat.den]) _ (by norm_num) h2
    have h0 : getPrecisionFuel 8192 ((1 : ℚ) / 8192) = some 13 :=
      getPrecisionFuel_step 8191 _ 12 (by norm_num [Rat.den]) _ (by norm_num) h1
    have hd : ((1 : ℚ) / 8192).den = 8192 := by norm_num [Rat.den]
    show getPrecisionFuel ((1 : ℚ) / 8192).den ((1 : ℚ) / 8192) = some 13
    rw [hd]
    exact h0
  · norm_num

/-- C5 (amended: the minimality holds but there is no cap at 12): the run
precision is `GetPrecision(data_delta_t)`, it is the smallest non-negative
integer `p` with `data_delta_t · 10^p` integral, and every file of the
step-map store is named `CreateFileName` at that precision of its key. -/
theorem claim_C5 (c : Config) (d : Dir) (advect : ℚ → Grid → Grid) (p : ℕ)
    (hp : GetPrecision c.data_delta_t = some p) :
    runPrecision c = p ∧
    (c.data_delta_t * 10 ^ p).den = 1 ∧
    (∀ k, k < p → (c.data_delta_t * 10 ^ k).den ≠ 1) ∧
    (∀ f ∈ (phaseARun c d advect).store,
        f.name = CreateFileName stepMapsPath c.filePref (signPref d) p f.key) := by
  have hrp : runPrecision c = p := by rw [runPrecision, hp]; rfl
  obtain ⟨h1, h2⟩ :=
    getPrecisionFuel_correct c.data_delta_t.den c.data_delta_t p hp
  refine ⟨hrp, h1, h2, ?_⟩
  intro f hf
  rw [phaseARun_store] at hf
  rcases List.mem_cons.mp hf with h | h
  · rw [h]
    show CreateFileName stepMapsPath c.filePref (signPref d) (runPrecision c)
        (tInitial c d) = _
    rw [hrp]
    rfl
  · obtain ⟨s, _, rfl⟩ := List.mem_map.mp h
    show CreateFileName stepMapsPath c.filePref (signPref d) (runPrecision c)
        (tInitial c d + signedDelta c d * ((s : ℚ) + 1)) = _
    rw [hrp]
    rfl

/-- C5 witness: at `data_delta_t = 1` the precision is 0 and the conclusion
holds for the concrete run `cfg2`. -/
theorem claim_C5_witness :
    runPrecision cfg2 = 0 ∧
    (cfg2.data_delta_t * 10 ^ 0).den = 1 ∧
    (∀ k, k < 0 → (cfg2.data_delta_t * 10 ^ k).den ≠ 1) ∧
    (∀ f ∈ (phaseARun cfg2 Dir.fwd advId).store,
        f.name = CreateFileName stepMapsPath cfg2.filePref (signPref Dir.fwd) 0 f.key) :=
  claim_C5 cfg2 Dir.fwd advId 0
    (getPrecisionFuel_den_one cfg2.data_delta_t (by norm_num [cfg2, Rat.den])
      (by norm_num [cfg2]) (by norm_num [cfg2]) _)

/-- C6 counterexample: a document with every recognized key plus the
unrecognized key `mystery_key` is not rejected; the whole run proceeds and
exits 0. -/
theorem claim_C6_cex :
    (readConfig (fullDoc ++ [("mystery_key", JVal.num 7)])).isSome = true ∧
    mainModel true (fullDoc ++ [("mystery_key", JVal.num 7)]) true
      = { exitCode := 0, msgs := [] } := by
  exact ⟨rfl, rfl⟩

/-- C6 (amended: unknown keys are ignored, not rejected): adding an
unrecognized key to a document does not change the parsed configuration, and a
document missing any recognized key is rejected before any compute begins. -/
theorem claim_C6 :
    (∀ (doc : List (String × JVal)) (k : String) (v : JVal),
        k ∉ recognizedKeys → readConfig ((k, v) :: doc) = readConfig doc) ∧
    (∀ (doc : List (String × JVal)) (k : String),
        k ∈ recognizedKeys → jlookup doc k = none → readConfig doc = none) := by
  constructor
  · intro doc k v hk
    have n : ∀ s ∈ recognizedKeys, ¬ k = s := fun s hs h => hk (h ▸ hs)
    unfold readConfig
    rw [jlookup_cons_ne k v doc "x_min" (n "x_min" (by simp [recognizedKeys])),
      jlookup_cons_ne k v doc "x_max" (n "x_max" (by simp [recognizedKeys])),
      jlookup_cons_ne k v doc "y_min" (n "y_min" (by simp [recognizedKeys])),
      jlookup_cons_ne k v doc "y_max" (n "y_max" (by simp [recognizedKeys])),
      jlookup_cons_ne k v doc "nx" (n "nx" (by simp [recognizedKeys])),
      jlookup_cons_ne k v doc "ny" (n "ny" (by simp [recognizedKeys])),
      jlookup_cons_ne k v doc "data_nx" (n "data_nx" (by simp [recognizedKeys])),
      jlookup_cons_ne k v doc "data_ny" (n "data_ny" (by simp [recognizedKeys])),
      jlookup_cons_ne k v doc "t_min" (n "t_min" (by simp [recognizedKeys])),
      jlookup_cons_ne k v doc "t_max" (n "t_max" (by simp [recognizedKeys])),
      jlookup_cons_ne k v doc "data_delta_t" (n "data_delta_t" (by simp [recognizedKeys])),
      jlookup_cons_ne k v doc "steps" (n "steps" (by simp [recognizedKeys])),
      jlookup_cons_ne k v doc "file_prefix" (n "file_prefix" (by simp [recognizedKeys])),
      jlookup_cons_ne k v doc "direction" (n "direction" (by simp [recognizedKeys]))]
  · intro doc k hk hnone
    simp only [recognizedKeys, List.mem_cons, List.not_mem_nil, or_false] at hk
    rcases hk with rfl | rfl | rfl | rfl | rfl | rfl | rfl | rfl | rfl | rfl | rfl | rfl | rfl | rfl <;>
      (unfold readConfig
       rw [hnone]
       repeat (first | rfl | (apply obind_all_none; intro _)))

/-- C6 witness: the unknown-key clause applied to `fullDoc` and
`mystery_key`. -/
theorem claim_C6_witness :
    readConfig (("mystery_key", JVal.num 7) :: fullDoc) = readConfig fullDoc :=
  claim_C6.1 fullDoc "mystery_key" (JVal.num 7) (by decide)

/-- C7 counterexample: for `direction = "sideways"` the process does exit 1,
but its single-line diagnostic is printed on standard output (`std::cout`,
line 110), not on the error stream. -/
theorem claim_C7_cex :
    mainModel true badDirDoc true
      = { exitCode := 1, msgs := [(StreamTag.out, dirMsg)] } := rfl

/-- C7 (amended: the invalid-direction diagnostic goes to standard output, not
the error stream): exit code 0 on success and 1 on the fatal errors, with the
unopenable-configuration diagnostic on the error stream, the invalid-direction
diagnostic on standard output, and (modelled from the spec) the I/O-failure
diagnostic on the error stream. -/
theorem claim_C7 (doc : List (String × JVal)) (ioOk : Bool) :
    (mainModel false doc ioOk
        = { exitCode := 1, msgs := [(StreamTag.err, cfgOpenMsg)] }) ∧
    (∀ c : Config, readConfig doc = some c → dirOf c = none →
        mainModel true doc ioOk
          = { exitCode := 1, msgs := [(StreamTag.out, dirMsg)] }) ∧
    (∀ (c : Config) (d : Dir), readConfig doc = some c → dirOf c = some d →
        mainModel true doc true = { exitCode := 0, msgs := [] }) ∧
    (∀ (c : Config) (d : Dir), readConfig doc = some c → dirOf c = some d →
        mainModel true doc false
          = { exitCode := 1, msgs := [(StreamTag.err, ioMsg)] }) := by
  refine ⟨rfl, ?_, ?_, ?_⟩
  · intro c h1 h2
    simp [mainModel, h1, h2]
  · intro c d h1 h2
    simp [mainModel, h1, h2]
  · intro c d h1 h2
    simp [mainModel, h1, h2]

/-- C7 witness: the README document opens, parses, has a valid direction, and
the run exits 0. -/
theorem claim_C7_witness :
    mainModel true fullDoc true = { exitCode := 0, msgs := [] } :=
  (claim_C7 fullDoc true).2.2.1 cfgF Dir.fwd rfl rfl

/-- C1: for every valid run and every Phase B iteration `i < steps`, the
orchestrator sets the origin time to `t_final - signedΔt·(i+1)`, chains
exactly `i+1` step maps — the `r`-th load happening at current position time
`t_i + r·signedΔt` and fetching the file keyed one step later, whose content
is the one-step advection seeded at that current time — in strictly
increasing time order for a forward run, and writes exactly one FTLE field
per iteration; equivalently, the composition with origin
`t_initial + (steps-(i+1))·Δt` uses exactly `i+1` step maps. -/
theorem claim_C1 (c : Config) (d : Dir) (advect : ℚ → Grid → Grid)
    (resamp : Grid → Grid → Grid) (i : ℕ)
    (hi : i < c.steps.toNat) (hlt : c.t_min < c.t_max) :
    (iterWrite c d resamp (phaseARun c d advect).store i).originTime
        = tFinal c d - signedDelta c d * ((i : ℚ) + 1) ∧
    (iterWrite c d resamp (phaseARun c d advect).store i).loads.length = i + 1 ∧
    (iterWrite c d resamp (phaseARun c d advect).store i).loads
        = (List.range (i + 1)).map (fun r : ℕ =>
            (originTimeAt c d i + signedDelta c d * (r : ℚ),
             originTimeAt c d i + signedDelta c d * ((r : ℚ) + 1))) ∧
    (∀ r : ℕ, r < i + 1 →
        lookupStore (phaseARun c d advect).store
            (originTimeAt c d i + signedDelta c d * ((r : ℚ) + 1))
          = advect (originTimeAt c d i + signedDelta c d * (r : ℚ)) (uniformGrid c)) ∧
    (d = Dir.fwd →
        StrictMono fun r : ℕ => originTimeAt c d i + signedDelta c d * (r : ℚ)) ∧
    (∀ st0 : FlowState,
        (phaseBWrites c d resamp (phaseARun c d advect).store st0).length
            = c.steps.toNat ∧
        (phaseBWrites c d resamp (phaseARun c d advect).store st0)[i]?
            = some (iterWrite c d resamp (phaseARun c d advect).store i)) ∧
    (iterWrite c d resamp (phaseARun c d advect).store i).originTime
        = tInitial c d
            + signedDelta c d * ((c.steps.toNat - (i + 1) : ℕ) : ℚ) := by
  have hs : 0 < c.steps := steps_pos_of_lt_toNat c i hi
  have hd : signedDelta c d ≠ 0 := signedDelta_ne_zero c d hlt hs
  have hij : i + 1 ≤ c.steps.toNat := hi
  have hTF : tFinal c d = tInitial c d + signedDelta c d * (c.steps.toNat : ℚ) :=
    tFinal_eq c d hs
  refine ⟨rfl, ?_, iterWrite_loads c d resamp _ i, ?_, ?_, ?_, ?_⟩
  · rw [iterWrite_loads]
    simp
  · intro r hr
    have hjN : c.steps.toNat - 1 - i + r < c.steps.toNat := by omega
    have hjr : c.steps.toNat - 1 - i + r = c.steps.toNat - (i + 1) + r := by omega
    have hcastj : ((c.steps.toNat - 1 - i + r : ℕ) : ℚ)
        = (c.steps.toNat : ℚ) - ((i : ℚ) + 1) + (r : ℚ) := by
      rw [hjr, Nat.cast_add, Nat.cast_sub hij]
      push_cast
      ring
    have hkey : originTimeAt c d i + signedDelta c d * ((r : ℚ) + 1)
        = tInitial c d
            + signedDelta c d * (((c.steps.toNat - 1 - i + r : ℕ) : ℚ) + 1) := by
      rw [originTimeAt, hTF, hcastj]
      ring
    have hstart : originTimeAt c d i + signedDelta c d * (r : ℚ)
        = tInitial c d + signedDelta c d * ((c.steps.toNat - 1 - i + r : ℕ) : ℚ) := by
      rw [originTimeAt, hTF, hcastj]
      ring
    rw [hkey, hstart, phaseARun_store]
    exact lookupStore_key c d advect hd c.steps.toNat _ hjN
  · intro hdir
    subst hdir
    have hpos : 0 < signedDelta c Dir.fwd := calcDelta_pos c hlt hs
    intro a b hab
    have hc : (a : ℚ) < (b : ℚ) := by exact_mod_cast hab
    have := mul_lt_mul_of_pos_left hc hpos
    show originTimeAt c Dir.fwd i + signedDelta c Dir.fwd * (a : ℚ)
        < originTimeAt c Dir.fwd i + signedDelta c Dir.fwd * (b : ℚ)
    linarith
  · intro st0
    rw [phaseBWrites_eq_map]
    constructor
    · simp
    · rw [List.getElem?_map, List.getElem?_range hi]
      rfl
  · have hcast : ((c.steps.toNat - (i + 1) : ℕ) : ℚ)
        = (c.steps.toNat : ℚ) - ((i : ℚ) + 1) := by
      rw [Nat.cast_sub hij]
      push_cast
      ring
    rw [iterWrite_originTime, originTimeAt, hTF, hcast]
    ring

/-- C1 witness: the concrete forward run `cfg2` at iteration `i = 1`. -/
theorem claim_C1_witness :
    (iterWrite cfg2 Dir.fwd rsId (phaseARun cfg2 Dir.fwd advId).store 1).originTime
        = tFinal cfg2 Dir.fwd - signedDelta cfg2 Dir.fwd * ((1 : ℚ) + 1) ∧
    (iterWrite cfg2 Dir.fwd rsId (phaseARun cfg2 Dir.fwd advId).store 1).loads.length
        = 1 + 1 ∧
    (iterWrite cfg2 Dir.fwd rsId (phaseARun cfg2 Dir.fwd advId).store 1).loads
        = (List.range (1 + 1)).map (fun r : ℕ =>
            (originTimeAt cfg2 Dir.fwd 1 + signedDelta cfg2 Dir.fwd * (r : ℚ),
             originTimeAt cfg2 Dir.fwd 1 + signedDelta cfg2 Dir.fwd * ((r : ℚ) + 1))) ∧
    (∀ r : ℕ, r < 1 + 1 →
        lookupStore (phaseARun cfg2 Dir.fwd advId).store
            (originTimeAt cfg2 Dir.fwd 1 + signedDelta cfg2 Dir.fwd * ((r : ℚ) + 1))
          = advId (originTimeAt cfg2 Dir.fwd 1 + signedDelta cfg2 Dir.fwd * (r : ℚ))
              (uniformGrid cfg2)) ∧
    (Dir.fwd = Dir.fwd →
        StrictMono fun r : ℕ =>
          originTimeAt cfg2 Dir.fwd 1 + signedDelta cfg2 Dir.fwd * (r : ℚ)) ∧
    (∀ st0 : FlowState,
        (phaseBWrites cfg2 Dir.fwd rsId (phaseARun cfg2 Dir.fwd advId).store st0).length
            = cfg2.steps.toNat ∧
        (phaseBWrites cfg2 Dir.fwd rsId (phaseARun cfg2 Dir.fwd advId).store st0)[1]?
            = some (iterWrite cfg2 Dir.fwd rsId (phaseARun cfg2 Dir.fwd advId).store 1)) ∧
    (iterWrite cfg2 Dir.fwd rsId (phaseARun cfg2 Dir.fwd advId).store 1).originTime
        = tInitial cfg2 Dir.fwd
            + signedDelta cfg2 Dir.fwd * ((cfg2.steps.toNat - (1 + 1) : ℕ) : ℚ) :=
  claim_C1 cfg2 Dir.fwd advId rsId 1 (by decide) (by decide)

/-- C2 counterexample: in the run `cfg2` (`t ∈ [0,2]`, two steps, forward),
the first step map loaded by composition `i = 0` is the file keyed
`t_final = 2`, not the one at `t_initial + Δt = 1`; so "for every composition
the first step map loaded is the one at `t_initial + Δt`" is false. -/
theorem claim_C2_cex :
    (iterWrite cfg2 Dir.fwd rsId (phaseARun cfg2 Dir.fwd advId).store 0).loads.head?
        = some (1, 2) ∧
    tInitial cfg2 Dir.fwd + calcDelta cfg2 = 1 ∧ (2 : ℚ) ≠ 1 := by
  refine ⟨?_, by norm_num [tInitial, calcDelta, cfg2], by norm_num⟩
  rw [iterWrite_loads]
  have h1 : List.range 1 = [0] := rfl
  rw [h1]
  simp only [List.map_cons, List.map_nil, List.head?_cons,
    Option.some.injEq, Prod.mk.injEq]
  norm_num [originTimeAt, tFinal, signedDelta, calcDelta, cfg2]

/-- C2 (amended: the identity file written at `t_initial` is indeed never
read, but the first map loaded by composition `i` is the one at
`t_i + signedΔt`, which equals `t_initial + Δt` only for the last
composition): the identity step map is written first, keyed `t_initial`, with
the uniform grid as content; no load of any composition uses the key
`t_initial`; and the first load of composition `i` happens at current time
`t_i` and fetches the key `t_i + signedΔt`. -/
theorem claim_C2 (c : Config) (d : Dir) (advect : ℚ → Grid → Grid)
    (resamp : Grid → Grid → Grid) (i : ℕ)
    (hi : i < c.steps.toNat) (hlt : c.t_min < c.t_max) :
    ((phaseARun c d advect).store.head? = some (idFileOf c d) ∧
      (idFileOf c d).key = tInitial c d ∧
      (idFileOf c d).content = uniformGrid c) ∧
    (∀ pr ∈ (iterWrite c d resamp (phaseARun c d advect).store i).loads,
        pr.2 ≠ tInitial c d) ∧
    (iterWrite c d resamp (phaseARun c d advect).store i).loads.head?
      = some (originTimeAt c d i, originTimeAt c d i + signedDelta c d) := by
  have hs : 0 < c.steps := steps_pos_of_lt_toNat c i hi
  have hd : signedDelta c d ≠ 0 := signedDelta_ne_zero c d hlt hs
  have hij : i + 1 ≤ c.steps.toNat := hi
  have hTF : tFinal c d = tInitial c d + signedDelta c d * (c.steps.toNat : ℚ) :=
    tFinal_eq c d hs
  refine ⟨?_, ?_, ?_⟩
  · rw [phaseARun_store]
    exact ⟨rfl, rfl, rfl⟩
  · intro pr hpr
    rw [iterWrite_loads] at hpr
    obtain ⟨r, hr, rfl⟩ := List.mem_map.mp hpr
    intro heq
    have heq2 : originTimeAt c d i + signedDelta c d * ((r : ℚ) + 1)
        = tInitial c d := heq
    have hNc : ((i : ℚ) + 1) ≤ (c.steps.toNat : ℚ) := by exact_mod_cast hij
    have hexp : originTimeAt c d i + signedDelta c d * ((r : ℚ) + 1)
        = tInitial c d + signedDelta c d
            * ((c.steps.toNat : ℚ) - ((i : ℚ) + 1) + ((r : ℚ) + 1)) := by
      rw [originTimeAt, hTF]
      ring
    rw [hexp] at heq2
    have hfac : signedDelta c d
        * ((c.steps.toNat : ℚ) - ((i : ℚ) + 1) + ((r : ℚ) + 1)) = 0 := by
      linarith
    rcases mul_eq_zero.mp hfac with h3 | h3
    · exact hd h3
    · have hrpos : (0 : ℚ) < (r : ℚ) + 1 := by positivity
      linarith
  · rw [iterWrite_loads, List.range_succ_eq_map]
    simp only [List.map_cons, List.head?_cons, Option.some.injEq, Prod.mk.injEq]
    norm_num

/-- C2 witness: the amended statement at the concrete run `cfg2`,
iteration `i = 1`. -/
theorem claim_C2_witness :
    ((phaseARun cfg2 Dir.fwd advId).store.head? = some (idFileOf cfg2 Dir.fwd) ∧
      (idFileOf cfg2 Dir.fwd).key = tInitial cfg2 Dir.fwd ∧
      (idFileOf cfg2 Dir.fwd).content = uniformGrid cfg2) ∧
    (∀ pr ∈ (iterWrite cfg2 Dir.fwd rsId (phaseARun cfg2 Dir.fwd advId).store 1).loads,
        pr.2 ≠ tInitial cfg2 Dir.fwd) ∧
    (iterWrite cfg2 Dir.fwd rsId (phaseARun cfg2 Dir.fwd advId).store 1).loads.head?
      = some (originTimeAt cfg2 Dir.fwd 1,
          originTimeAt cfg2 Dir.fwd 1 + signedDelta cfg2 Dir.fwd) :=
  claim_C2 cfg2 Dir.fwd advId rsId 1 (by decide) (by decide)

/-- C3 counterexample: with `steps = 0` the Phase B loop runs zero times, so
no FTLE output file is written at all — there is no file with all-zero or
all-sentinel cells. -/
theorem claim_C3_cex :
    phaseBWrites cfg0 Dir.fwd rsId (phaseARun cfg0 Dir.fwd advId).store
        (initFlowState cfg0 Dir.fwd) = [] := rfl

/-- C3 (amended: with `steps = 0` Phase B performs zero iterations and writes
no FTLE output file; Phase A writes only the identity step map). -/
theorem claim_C3 (c : Config) (d : Dir) (advect : ℚ → Grid → Grid)
    (resamp : Grid → Grid → Grid) (st0 : FlowState) (h : c.steps = 0) :
    phaseBWrites c d resamp (phaseARun c d advect).store st0 = [] ∧
    (phaseARun c d advect).store = [idFileOf c d] := by
  have h0 : c.steps.toNat = 0 := by rw [h]; rfl
  constructor
  · show phaseBRun c d resamp (phaseARun c d advect).store st0
        (List.range c.steps.toNat) = []
    rw [h0]
    rfl
  · show ((phaseAStep c d advect)^[c.steps.toNat] (phaseAInit c d)).store = _
    rw [h0]
    rfl

/-- C3 witness: the concrete zero-step run `cfg0`. -/
theorem claim_C3_witness :
    phaseBWrites cfg0 Dir.fwd rsId (phaseARun cfg0 Dir.fwd advId).store
        (initFlowState cfg0 Dir.fwd) = [] ∧
    (phaseARun cfg0 Dir.fwd advId).store = [idFileOf cfg0 Dir.fwd] :=
  claim_C3 cfg0 Dir.fwd advId rsId (initFlowState cfg0 Dir.fwd) rfl

/-- C4: every Phase A step starts from the uniform grid (the reset on
line 133 makes the inter-step dependence nominal), and Phase B's outputs do
not depend on the flow state carried between iterations: the write list from
any incoming state equals the map of a pure per-iteration function of the
configuration and the Phase A store only. -/
theorem claim_C4 (c : Config) (d : Dir) (advect : ℚ → Grid → Grid)
    (resamp : Grid → Grid → Grid) :
    (∀ k : ℕ, ((phaseAStep c d advect)^[k] (phaseAInit c d)).pos = uniformGrid c) ∧
    (∀ st st' : FlowState,
        phaseBWrites c d resamp (phaseARun c d advect).store st
          = phaseBWrites c d resamp (phaseARun c d advect).store st') ∧
    (∀ st : FlowState,
        phaseBWrites c d resamp (phaseARun c d advect).store st
          = (List.range c.steps.toNat).map
              (iterWrite c d resamp (phaseARun c d advect).store)) :=
  ⟨phaseA_pos c d advect,
   fun st st' => by rw [phaseBWrites_eq_map, phaseBWrites_eq_map],
   fun st => phaseBWrites_eq_map c d resamp _ st⟩

/-- C8: every FTLE output of a valid run ends at `t_final`, and its filename
puts the earlier time first: forward runs render
`{prefix}positive_{t_origin}-{t_final}.txt` with `t_origin < t_final`,
backward runs render `{prefix}negative_{t_final}-{t_origin}.txt` with
`t_final < t_origin`. -/
theorem claim_C8 (c : Config) (d : Dir) (resamp : Grid → Grid → Grid)
    (store : List StepMapFile) (i : ℕ) (hi : i < c.steps.toNat)
    (hlt : c.t_min < c.t_max) :
    (iterWrite c d resamp store i).finalTime = tFinal c d ∧
    (d = Dir.fwd →
      (iterWrite c d resamp store i).name
        = pathJoin ftlePath (c.filePref ++ "positive_"
            ++ fmtFixed (runPrecision c) ((iterWrite c d resamp store i).originTime)
            ++ "-" ++ fmtFixed (runPrecision c) ((iterWrite c d resamp store i).finalTime)
            ++ ".txt") ∧
      (iterWrite c d resamp store i).originTime
        < (iterWrite c d resamp store i).finalTime) ∧
    (d = Dir.bwd →
      (iterWrite c d resamp store i).name
        = pathJoin ftlePath (c.filePref ++ "negative_"
            ++ fmtFixed (runPrecision c) ((iterWrite c d resamp store i).finalTime)
            ++ "-" ++ fmtFixed (runPrecision c) ((iterWrite c d resamp store i).originTime)
            ++ ".txt") ∧
      (iterWrite c d resamp store i).finalTime
        < (iterWrite c d resamp store i).originTime) := by
  have hs : 0 < c.steps := steps_pos_of_lt_toNat c i hi
  have hdp : 0 < calcDelta c := calcDelta_pos c hlt hs
  have hT : originTimeAt c d i + signedDelta c d * ((i : ℚ) + 1) = tFinal c d := by
    rw [originTimeAt]
    ring
  have hfin : (iterWrite c d resamp store i).finalTime = tFinal c d := by
    rw [iterWrite_finalTime, hT]
  refine ⟨hfin, ?_, ?_⟩
  · intro hdir
    subst hdir
    constructor
    · rw [iterWrite_name, hT]
      simp only [CreateFTLEFileName, signPref, iterWrite_originTime, hfin]
    · rw [iterWrite_originTime, hfin, originTimeAt]
      have hp : 0 < signedDelta c Dir.fwd * ((i : ℚ) + 1) :=
        mul_pos hdp (by positivity)
      linarith
  · intro hdir
    subst hdir
    constructor
    · rw [iterWrite_name, hT]
      simp only [CreateFTLEFileName, signPref, iterWrite_originTime, hfin]
    · rw [iterWrite_originTime, hfin, originTimeAt]
      have hn : signedDelta c Dir.bwd * ((i : ℚ) + 1) < 0 := by
        apply mul_neg_of_neg_of_pos _ (by positivity)
        show -calcDelta c < 0
        linarith
      linarith

/-- C8 witness: the concrete forward run `cfg2` at iteration `i = 0`. -/
theorem claim_C8_witness :
    (iterWrite cfg2 Dir.fwd rsId [] 0).finalTime = tFinal cfg2 Dir.fwd ∧
    (Dir.fwd = Dir.fwd →
      (iterWrite cfg2 Dir.fwd rsId [] 0).name
        = pathJoin ftlePath (cfg2.filePref ++ "positive_"
            ++ fmtFixed (runPrecision cfg2) ((iterWrite cfg2 Dir.fwd rsId [] 0).originTime)
            ++ "-" ++ fmtFixed (runPrecision cfg2) ((iterWrite cfg2 Dir.fwd rsId [] 0).finalTime)
            ++ ".txt") ∧
      (iterWrite cfg2 Dir.fwd rsId [] 0).originTime
        < (iterWrite cfg2 Dir.fwd rsId [] 0).finalTime) ∧
    (Dir.fwd = Dir.bwd →
      (iterWrite cfg2 Dir.fwd rsId [] 0).name
        = pathJoin ftlePath (cfg2.filePref ++ "negative_"
            ++ fmtFixed (runPrecision cfg2) ((iterWrite cfg2 Dir.fwd rsId [] 0).finalTime)
            ++ "-" ++ fmtFixed (runPrecision cfg2) ((iterWrite cfg2 Dir.fwd rsId [] 0).originTime)
            ++ ".txt") ∧
      (iterWrite cfg2 Dir.fwd rsId [] 0).finalTime
        < (iterWrite cfg2 Dir.fwd rsId [] 0).originTime) :=
  claim_C8 cfg2 Dir.fwd rsId [] 0 (by decide) (by decide)

/-- C9: with the OpenMP cell loops modelled as pure per-cell updates applied
in a schedule order (spec §5), any two runs over schedules covering the same
cells produce identical step-flow-map stores and identical FTLE write lists —
outputs do not depend on the thread schedule. -/
theorem claim_C9 (c : Config) (d : Dir) (cellA : ℚ → (ℚ × ℚ) → ℚ × ℚ)
    (cellR : Grid → (ℚ × ℚ) → ℚ × ℚ) (o₁ o₂ o₃ o₄ : List (ℕ × ℕ))
    (st0 : FlowState)
    (h : ∀ x, x ∈ o₁ ↔ x ∈ o₂) (h' : ∀ x, x ∈ o₃ ↔ x ∈ o₄) :
    (phaseARun c d (parAdvect cellA o₁)).store
        = (phaseARun c d (parAdvect cellA o₂)).store ∧
    phaseBWrites c d (parResamp cellR o₃)
        (phaseARun c d (parAdvect cellA o₁)).store st0
      = phaseBWrites c d (parResamp cellR o₄)
          (phaseARun c d (parAdvect cellA o₂)).store st0 := by
  rw [parAdvect_order_inv cellA o₁ o₂ h, parResamp_order_inv cellR o₃ o₄ h']
  exact ⟨rfl, rfl⟩

/-- C9 witness: two schedules visiting the same two cells in opposite
orders give identical outputs on the concrete run `cfg2`. -/
theorem claim_C9_witness :
    (phaseARun cfg2 Dir.fwd (parAdvect cellA0 ordA)).store
        = (phaseARun cfg2 Dir.fwd (parAdvect cellA0 ordB)).store ∧
    phaseBWrites cfg2 Dir.fwd (parResamp cellR0 ordA)
        (phaseARun cfg2 Dir.fwd (parAdvect cellA0 ordA)).store
        (initFlowState cfg2 Dir.fwd)
      = phaseBWrites cfg2 Dir.fwd (parResamp cellR0 ordB)
          (phaseARun cfg2 Dir.fwd (parAdvect cellA0 ordB)).store
          (initFlowState cfg2 Dir.fwd) :=
  claim_C9 cfg2 Dir.fwd cellA0 cellR0 ordA ordB ordA ordB (initFlowState cfg2 Dir.fwd)
    (fun x => by simp [ordA, ordB, List.mem_cons]; tauto)
    (fun x => by simp [ordA, ordB, List.mem_cons]; tauto)

end LCS
